import Mathlib

/-!
Verification development for the TrueFlow capture-detect-export pipeline.

The repository ships the test-suite of its Python core
(`python_runtime_instrumentor.py`: classes `RuntimeInstrumentor` and
`FunctionCall`), but the core module itself is not part of the tree; only
its tests, loaders and callers are.  Following the specification, the core
is therefore modelled here from the specification text (sections 3-8),
with the shapes of the public surface (field names, export file names,
pattern-table entries) taken from what the tests of the repository assert.
-/

/-- Substring test on character lists: true when `p` occurs contiguously
inside `l`.  Used to model the substring scans of the protocol detector. -/
def containsSub (p : List Char) : List Char → Bool
  | [] => p.isEmpty
  | c :: rest => p.isPrefixOf (c :: rest) || containsSub p rest

/-- Modelled from the spec: the stringified forms a visible local binding can
take when the trace hook inspects a frame (section 4.2 of the spec; the
Python detector `_detect_patterns_in_frame` is not in the tree).  Oversized
strings are represented by a length plus repeated character so that
million-character payloads stay tractable; binary payloads, `None` and
self-referential structures are own constructors. -/
inductive PyValue : Type where
  | VStr (s : String)
  | VBigStr (len : Nat) (c : Char)
  | VBytes (bs : List Nat)
  | VNone
  | VCircular
deriving DecidableEq, Repr

/-- Bound on the stringified length of an inspected binding (the spec asks
for a bounded-length stringification with a size cap). -/
def STR_CAP : Nat := 200

/-- Modelled from the spec: bounded stringification of a visible binding
(section 4.2).  Values that cannot be cheaply stringified (binary payloads,
self-referential structures) yield `none` and are skipped by the detector;
strings are truncated to `STR_CAP` characters; `None` stringifies to
`"None"`. -/
def stringify : PyValue → Option String
  | .VStr s => some ⟨s.data.take STR_CAP⟩
  | .VBigStr len c => some ⟨List.replicate (min len STR_CAP) c⟩
  | .VBytes _ => none
  | .VNone => some "None"
  | .VCircular => none

/-- One structured evidence entry appended to a protocol list of a
CallRecord (spec section 3: kind, raw snippet, timestamp; the tests use the
keys `variable`, `query`/`data`, `timestamp`). -/
structure Evidence : Type where
  var_name : String
  snippet : String
  timestamp : Nat
deriving DecidableEq, Repr

/-- Modelled from the spec: the SQL pattern table (spec section 4.2 gives
the entry `"SELECT "`; the unit test asserts that `'SELECT '` and
`'INSERT '` are members). -/
def sql_patterns : List String := ["SELECT ", "INSERT ", "UPDATE ", "DELETE "]

/-- Modelled from the spec: WebSocket pattern table (`ws://`, `websocket`
asserted by the unit test). -/
def websocket_patterns : List String := ["ws://", "wss://", "websocket"]

/-- Modelled from the spec: gRPC pattern table. -/
def grpc_patterns : List String := ["grpc"]

/-- Modelled from the spec: GraphQL pattern table. -/
def graphql_patterns : List String := ["graphql"]

/-- Modelled from the spec: Kafka pattern table. -/
def kafka_patterns : List String := ["kafka"]

/-- Modelled from the spec: Redis pattern table. -/
def redis_patterns : List String := ["redis"]

/-- Modelled from the spec: MCP pattern table. -/
def mcp_patterns : List String := ["mcp"]

/-- Modelled from the spec: agent-framework marker table (class names such
as the ones exercised by the end-to-end test). -/
def agent_patterns : List String := ["autogen", "crewai", "Crew(", "AssistantAgent"]

/-- Modelled from the spec: one protocol scan of the detector.  Every
visible binding whose bounded stringification contains one of the table
entries contributes one evidence record; bindings that cannot be cheaply
stringified are skipped (section 4.2). -/
def scanFor (pats : List String) (locals : List (String × PyValue)) (t : Nat) :
    List Evidence :=
  locals.flatMap fun nv =>
    match stringify nv.2 with
    | none => []
    | some s =>
      if pats.any (fun p => containsSub p.data s.data) then
        [⟨nv.1, s, t⟩]
      else []

/-- Modelled from the spec: the `FunctionCall` CallRecord entity of the
missing `python_runtime_instrumentor.py` (spec section 3; field names and
default values as asserted by `test_function_call_default_values` and
`test_function_call_protocol_lists`).  `ancestors` is a history field
recording the snapshot of the owning thread call stack at entry time, used
to state the depth invariant of section 3. -/
structure FunctionCall : Type where
  call_id : Nat
  function_name : String
  module : String
  file_path : String
  line_number : Nat
  start_time : Nat
  end_time : Option Nat := none
  duration_ms : Option Nat := none
  framework : Option String := none
  invocation_type : String := "sync"
  is_ai_agent : Bool := false
  parent_id : Option Nat := none
  depth : Nat := 0
  exception : Option String := none
  ancestors : List Nat := []
  sql_queries : List Evidence := []
  websocket_events : List Evidence := []
  grpc_calls : List Evidence := []
  graphql_queries : List Evidence := []
  kafka_events : List Evidence := []
  redis_commands : List Evidence := []
  memcached_ops : List Evidence := []
  elasticsearch_queries : List Evidence := []
  sse_events : List Evidence := []
  http2_frames : List Evidence := []
  thrift_calls : List Evidence := []
  zeromq_messages : List Evidence := []
  nats_messages : List Evidence := []
  mqtt_messages : List Evidence := []
  amqp_messages : List Evidence := []
  webrtc_events : List Evidence := []
  mcp_calls : List Evidence := []
  agent_communications : List Evidence := []
  process_spawns : List Evidence := []
deriving DecidableEq, Repr

/-- A call site: location data carried by an enter event (spec section 3,
Location fields). -/
structure Site : Type where
  function_name : String
  module : String
  file_path : String
  line_number : Nat
deriving DecidableEq, Repr

/-- A well-formed trace-hook event: function entry with the visible local
bindings, exception raised in the current call, and return (spec sections
4.1 and 6).  Every event carries the identity of the host thread that
produced it. -/
inductive TEvent : Type where
  | enter (tid : Nat) (site : Site) (locals : List (String × PyValue))
  | exc (tid : Nat) (msg : String)
  | ret (tid : Nat)
deriving DecidableEq, Repr

/-- Modelled from the spec: the mutable state of the missing
`RuntimeInstrumentor` class (spec sections 3-4): session identity, the
retained CallRecord list, the per-thread call stacks (innermost first), the
monotone call counter, the capture-enabled flag and the `max_calls` memory
bound.  `now` is the logical clock: each processed event advances it by
one, and start and end timestamps are drawn from it. -/
structure RuntimeInstrumentor : Type where
  session_id : String
  calls : List FunctionCall
  call_stacks : Nat → List Nat
  call_counter : Nat
  enabled : Bool
  max_calls : Nat
  now : Nat

/-- Pointwise update of the per-thread stack family. -/
def setStack (f : Nat → List Nat) (tid : Nat) (v : List Nat) : Nat → List Nat :=
  fun u => if u = tid then v else f u

/-- Apply `f` to the element at index `i`, leaving the rest unchanged. -/
def updAt : List α → Nat → (α → α) → List α
  | [], _, _ => []
  | x :: xs, 0, f => f x :: xs
  | x :: xs, n + 1, f => x :: updAt xs n f

/-- Modelled from the spec: a freshly allocated CallRecord, carrying only
identity, location and start time; every nullable or derived field is at
its default (spec section 3, Lifecycle). -/
def new_function_call (cid : Nat) (site : Site) (t : Nat) : FunctionCall :=
  { call_id := cid
    function_name := site.function_name
    module := site.module
    file_path := site.file_path
    line_number := site.line_number
    start_time := t }

/-- Modelled from the spec: the detector pass run at call entry
(`_detect_patterns_in_frame` of the missing core): every protocol table is
scanned over the visible bindings and matches are appended to the
corresponding evidence list of the active record (spec section 4.2). -/
def detect_patterns_in_frame (locals : List (String × PyValue)) (t : Nat)
    (r : FunctionCall) : FunctionCall :=
  { r with
    sql_queries := r.sql_queries ++ scanFor sql_patterns locals t
    websocket_events := r.websocket_events ++ scanFor websocket_patterns locals t
    grpc_calls := r.grpc_calls ++ scanFor grpc_patterns locals t
    graphql_queries := r.graphql_queries ++ scanFor graphql_patterns locals t
    kafka_events := r.kafka_events ++ scanFor kafka_patterns locals t
    redis_commands := r.redis_commands ++ scanFor redis_patterns locals t
    mcp_calls := r.mcp_calls ++ scanFor mcp_patterns locals t
    agent_communications := r.agent_communications ++ scanFor agent_patterns locals t }

/-- Close a record: set `end_time` and derive `duration_ms` (spec section
4.1, the return step). -/
def closeCall (t : Nat) (r : FunctionCall) : FunctionCall :=
  { r with end_time := some t, duration_ms := some (t - r.start_time) }

/-- Mark the exception on a record without closing it (spec section 4.1,
the exception step). -/
def markExc (m : String) (r : FunctionCall) : FunctionCall :=
  { r with exception := some m }

/-- Modelled from the spec: the CallRecord allocated at an enter event
(spec section 4.1): `parent_id` is the top of the owning thread stack,
`depth` the stack length, `ancestors` the entry-time stack snapshot, and
the detector pass is applied to the visible bindings. -/
def enterRecord (st : RuntimeInstrumentor) (tid : Nat) (site : Site)
    (locals : List (String × PyValue)) : FunctionCall :=
  detect_patterns_in_frame locals st.now
    { new_function_call st.call_counter site st.now with
      parent_id := (st.call_stacks tid).head?
      depth := (st.call_stacks tid).length
      ancestors := st.call_stacks tid }

/-- Modelled from the spec: one step of the trace engine (spec section 4.1).
On `enter` with capture enabled and the `max_calls` bound not yet reached,
a CallRecord is allocated and its id pushed; when the bound is reached the
enter is rejected and capture is disabled (spec section 4.3), existing
records being kept.  On `exception` the current top-of-stack record is
marked; on `return` the top is popped and closed.  The logical clock
advances on every event. -/
def traceStep (st : RuntimeInstrumentor) (ev : TEvent) : RuntimeInstrumentor :=
  let t := st.now
  match ev with
  | .enter tid site locals =>
    if st.enabled && decide (st.calls.length < st.max_calls) then
      { st with
        calls := st.calls ++ [enterRecord st tid site locals]
        call_counter := st.call_counter + 1
        call_stacks := setStack st.call_stacks tid
          (st.call_counter :: st.call_stacks tid)
        now := t + 1 }
    else
      { st with enabled := false, now := t + 1 }
  | .exc tid m =>
    match st.call_stacks tid with
    | [] => { st with now := t + 1 }
    | c :: _ => { st with calls := updAt st.calls c (markExc m), now := t + 1 }
  | .ret tid =>
    match st.call_stacks tid with
    | [] => { st with now := t + 1 }
    | c :: rest =>
      { st with
        calls := updAt st.calls c (closeCall t)
        call_stacks := setStack st.call_stacks tid rest
        now := t + 1 }

/-- Modelled from the spec: the state of a freshly constructed
`RuntimeInstrumentor` (unit test `test_instrumentor_initialization`: empty
call list, empty stacks, zero counter, capture enabled). -/
def initState (maxCalls : Nat) (sid : String) : RuntimeInstrumentor :=
  { session_id := sid
    calls := []
    call_stacks := fun _ => []
    call_counter := 0
    enabled := true
    max_calls := maxCalls
    now := 0 }

/-- Run the trace engine over a list of events from a given state. -/
def runFrom (st : RuntimeInstrumentor) (evs : List TEvent) : RuntimeInstrumentor :=
  evs.foldl traceStep st

/-- Run the trace engine over a list of events from the initial state. -/
def runEvents (maxCalls : Nat) (sid : String) (evs : List TEvent) :
    RuntimeInstrumentor :=
  runFrom (initState maxCalls sid) evs

/-- Modelled from the spec: the fallible inside of the trace hook.  The
host runtime may hand the hook a missing or corrupted frame (`none`), in
which case the inside fails; on a well-formed event it performs one engine
step (spec section 4.1, Resilience). -/
def hookE (st : RuntimeInstrumentor) (ev : Option TEvent) :
    Except String RuntimeInstrumentor :=
  match ev with
  | none => Except.error "bad frame state"
  | some e => Except.ok (traceStep st e)

/-- Modelled from the spec: the host-facing trace hook
(`RuntimeInstrumentor.trace_function`).  Every failure of the inside is
caught and swallowed, leaving the instrumentor state untouched, so that
tracing never propagates an error into the host program (spec sections 4.1
and 7). -/
def trace_function (st : RuntimeInstrumentor) (ev : Option TEvent) :
    RuntimeInstrumentor :=
  match hookE st ev with
  | Except.ok s => s
  | Except.error _ => st

/-- A minimal JSON value, the shape of the structured artifacts. -/
inductive JsonVal : Type where
  | jnull
  | jstr (s : String)
  | jnum (n : Nat)
  | jbool (b : Bool)
  | jarr (xs : List JsonVal)
  | jobj (fields : List (String × JsonVal))
deriving Repr

/-- The content of one exported artifact: a JSON document or a plain text
document given as its list of lines. -/
inductive ArtifactContent : Type where
  | jsonC (j : JsonVal)
  | textC (lines : List String)
deriving Repr

/-- One artifact written by a renderer of the export pipeline. -/
structure ArtifactFile : Type where
  name : String
  content : ArtifactContent
deriving Repr

/-- Modelled from the spec: total SQL query count across all captured
calls, the `statistics.total_queries` figure of `sql_analysis.json` (spec
section 4.4). -/
def sql_total_queries (st : RuntimeInstrumentor) : Nat :=
  (st.calls.map (fun r => r.sql_queries.length)).sum

/-- All SQL evidence entries flattened across calls, the `all_queries`
array of `sql_analysis.json`. -/
def all_sql_queries (st : RuntimeInstrumentor) : List Evidence :=
  st.calls.flatMap (fun r => r.sql_queries)

/-- JSON rendering of one evidence entry. -/
def evidenceJson (e : Evidence) : JsonVal :=
  .jobj [("variable", .jstr e.var_name), ("data", .jstr e.snippet),
         ("timestamp", .jnum e.timestamp)]

/-- Modelled from the spec: the `performance.json` renderer, one
per-function metrics entry per captured call (spec section 4.4; entry
fields as asserted by `test_export_performance_json`). -/
def export_performance_json (st : RuntimeInstrumentor) : ArtifactFile :=
  { name := st.session_id ++ "_performance.json"
    content := .jsonC (.jobj
      [("session_id", .jstr st.session_id),
       ("function_metrics", .jarr (st.calls.map fun r =>
         .jobj [("function", .jstr r.function_name),
                ("module", .jstr r.module),
                ("total_time_ms", .jnum (r.duration_ms.getD 0))]))]) }

/-- One flamegraph frame: carries `parent_id` and `depth` (spec section
4.4). -/
def frameJson (r : FunctionCall) : JsonVal :=
  .jobj [("name", .jstr r.function_name),
         ("parent_id", match r.parent_id with
                       | none => .jnull
                       | some p => .jnum p),
         ("depth", .jnum r.depth)]

/-- Modelled from the spec: the `flamegraph.json` renderer: hierarchical
frame array plus aggregate statistics (spec section 4.4). -/
def export_flamegraph_json (st : RuntimeInstrumentor) : ArtifactFile :=
  { name := st.session_id ++ "_flamegraph.json"
    content := .jsonC (.jobj
      [("session_id", .jstr st.session_id),
       ("frames", .jarr (st.calls.map frameJson)),
       ("statistics", .jobj
         [("total_calls", .jnum st.calls.length),
          ("total_duration_ms",
            .jnum (st.calls.map (fun r => r.duration_ms.getD 0)).sum),
          ("max_depth", .jnum ((st.calls.map FunctionCall.depth).foldr max 0))])]) }

/-- Modelled from the spec: the `sql_analysis.json` renderer (spec section
4.4). -/
def export_sql_analysis_json (st : RuntimeInstrumentor) : ArtifactFile :=
  { name := st.session_id ++ "_sql_analysis.json"
    content := .jsonC (.jobj
      [("session_id", .jstr st.session_id),
       ("statistics", .jobj [("total_queries", .jnum (sql_total_queries st))]),
       ("all_queries", .jarr ((all_sql_queries st).map evidenceJson))]) }

/-- Modelled from the spec: the `live_metrics.json` renderer (spec section
4.4; metric keys as asserted by `test_export_live_metrics_json`). -/
def export_live_metrics_json (st : RuntimeInstrumentor) : ArtifactFile :=
  { name := st.session_id ++ "_live_metrics.json"
    content := .jsonC (.jobj
      [("session_id", .jstr st.session_id),
       ("metrics", .jobj
         [("requests_per_sec", .jnum st.calls.length),
          ("avg_latency_ms",
            .jnum ((st.calls.map (fun r => r.duration_ms.getD 0)).sum /
              max 1 st.calls.length)),
          ("error_rate_percent",
            .jnum (100 * (st.calls.filter
                (fun r => r.exception.isSome)).length /
              max 1 st.calls.length))])]) }

/-- Modelled from the spec: the field list of the
`distributed_analysis.json` object: per-protocol event lists for
WebSocket, agent and MCP evidence plus the architecture map.  Kafka
evidence, although captured on the records, is not part of this artifact
(unit test `test_export_distributed_analysis_json`, end-to-end test
`test_ai_agent_communication`). -/
def distributed_fields (st : RuntimeInstrumentor) : List (String × JsonVal) :=
  [("session_id", .jstr st.session_id),
   ("websocket_events",
     .jarr ((st.calls.flatMap (fun r => r.websocket_events)).map evidenceJson)),
   ("agent_communications",
     .jarr ((st.calls.flatMap (fun r => r.agent_communications)).map evidenceJson)),
   ("mcp_calls",
     .jarr ((st.calls.flatMap (fun r => r.mcp_calls)).map evidenceJson)),
   ("architecture_map", .jobj
     (st.calls.flatMap (fun r =>
       if r.sql_queries.isEmpty then [] else [(r.module, JsonVal.jstr "sql")])))]

/-- Modelled from the spec: the `distributed_analysis.json` renderer (spec
section 4.4). -/
def export_distributed_analysis_json (st : RuntimeInstrumentor) : ArtifactFile :=
  { name := st.session_id ++ "_distributed_analysis.json"
    content := .jsonC (.jobj (distributed_fields st)) }

/-- Modelled from the spec: escaping applied to every attacker-controlled
string (module names, session identifiers, labels) before it is embedded
in the PlantUML document: the characters that could terminate a line or a
quoted name, or start a diagram directive, are replaced by an underscore
(spec section 4.4, the `.puml` row). -/
def escapePuml (s : String) : String :=
  ⟨s.data.map fun c =>
    if c = '@' || c = '"' || c = '\n' || c = '\r' then '_' else c⟩

/-- Modelled from the spec: the lines of the PlantUML sequence diagram.
The document opens with the start directive, carries a title built from
the escaped session identifier, one participant line per captured call
with the escaped module name, one message line per parent-child edge, and
closes with the end directive (spec section 4.4). -/
def plantuml_lines (st : RuntimeInstrumentor) : List String :=
  ("@startuml" ::
    ("title Session " ++ escapePuml st.session_id) ::
    (st.calls.map (fun r =>
      "participant \"" ++ escapePuml r.module ++ "\"") ++
     st.calls.flatMap (fun r =>
       match r.parent_id with
       | none => []
       | some p =>
         match st.calls[p]? with
         | none => []
         | some a =>
           ["\"" ++ escapePuml a.module ++ "\" -> \"" ++
             escapePuml r.module ++ "\" : " ++ escapePuml r.function_name])))
  ++ ["@enduml"]

/-- Modelled from the spec: the `.puml` renderer. -/
def export_plantuml (st : RuntimeInstrumentor) : ArtifactFile :=
  { name := st.session_id ++ "_sequence.puml"
    content := .textC (plantuml_lines st) }

/-- Modelled from the spec: the `_summary.md` renderer: fixed markdown
sections, mentioning detected frameworks by name (spec section 4.4;
headers as asserted by `test_export_markdown_summary`). -/
def export_markdown_summary (st : RuntimeInstrumentor) : ArtifactFile :=
  { name := st.session_id ++ "_summary.md"
    content := .textC
      (["# Runtime Analysis Summary",
        "Session: " ++ st.session_id,
        "## Architecture Overview"] ++
       (st.calls.filterMap FunctionCall.framework).map (fun f => "- " ++ f) ++
       ["## Performance Metrics",
        "Total calls: " ++ toString st.calls.length,
        "## Top 10 Slowest Functions"] ++
       (st.calls.take 10).map (fun r => "- " ++ r.function_name)) }

/-- Modelled from the spec: the `_llm_summary.txt` renderer: prose summary
ending in an ARCHITECTURE INSIGHTS section (spec section 4.4). -/
def export_llm_text_summary (st : RuntimeInstrumentor) : ArtifactFile :=
  { name := st.session_id ++ "_llm_summary.txt"
    content := .textC
      ["RUNTIME ANALYSIS SUMMARY",
       "This Python application made " ++ toString st.calls.length ++
         " traced calls.",
       "It executed " ++ toString (sql_total_queries st) ++ " SQL queries.",
       "WebSocket events observed: " ++
         toString (st.calls.flatMap (fun r => r.websocket_events)).length ++ ".",
       "ARCHITECTURE INSIGHTS",
       "The session identifier is " ++ st.session_id ++ "."] }

/-- Modelled from the spec: the `_architecture.mmd` renderer: a Mermaid
graph with directed edges between module nodes (spec section 4.4). -/
def export_mermaid_diagrams (st : RuntimeInstrumentor) : ArtifactFile :=
  { name := st.session_id ++ "_architecture.mmd"
    content := .textC
      ("graph TD" ::
       st.calls.flatMap (fun r =>
         match r.parent_id with
         | none => []
         | some p =>
           match st.calls[p]? with
           | none => []
           | some a => ["  " ++ a.module ++ " --> " ++ r.module])) }

/-- Modelled from the spec: the `_architecture.d2` renderer: right
direction, rectangle nodes, `->` edges (spec section 4.4). -/
def export_d2_diagram (st : RuntimeInstrumentor) : ArtifactFile :=
  { name := st.session_id ++ "_architecture.d2"
    content := .textC
      ("direction: right" ::
       (st.calls.map (fun r => r.module ++ ".shape: rectangle") ++
        st.calls.flatMap (fun r =>
          match r.parent_id with
          | none => []
          | some p =>
            match st.calls[p]? with
            | none => []
            | some a => [a.module ++ " -> " ++ r.module]))) }

/-- Modelled from the spec: the `_ascii.txt` renderer: box-drawing map
headed RUNTIME ARCHITECTURE MAP and YOUR APPLICATION (spec section 4.4). -/
def export_ascii_art (st : RuntimeInstrumentor) : ArtifactFile :=
  { name := st.session_id ++ "_ascii.txt"
    content := .textC
      ["RUNTIME ARCHITECTURE MAP",
       "YOUR APPLICATION",
       "Python Process",
       "SQL queries: " ++ toString (sql_total_queries st)] }

/-- Modelled from the spec: the eleven renderers of the export pipeline in
order, each producing exactly one artifact (spec section 4.4). -/
def renderList (st : RuntimeInstrumentor) : List ArtifactFile :=
  [export_performance_json st,
   export_flamegraph_json st,
   export_sql_analysis_json st,
   export_live_metrics_json st,
   export_distributed_analysis_json st,
   export_plantuml st,
   export_markdown_summary st,
   export_llm_text_summary st,
   export_mermaid_diagrams st,
   export_d2_diagram st,
   export_ascii_art st]

/-- Modelled from the spec: `finalize()` with no internal renderer
failure: the eleven artifacts produced from the finalized CallRecord list
(spec sections 4.4 and 4.5). -/
def finalize (st : RuntimeInstrumentor) : List ArtifactFile :=
  renderList st

/-- A placeholder artifact used only to make positional renderer access
total. -/
def dummyFile : ArtifactFile :=
  { name := "", content := .textC [] }

/-- The renderer at position `i` of the pipeline. -/
def renderAt (st : RuntimeInstrumentor) (i : Nat) : ArtifactFile :=
  (renderList st).getD i dummyFile

/-- Modelled from the spec: one renderer invocation under a failure
oracle: `fail i = true` means the renderer at position `i` fails
internally, which surfaces as an error of the fallible computation (spec
section 4.4, failure isolation). -/
def renderTry (fail : Nat → Bool) (st : RuntimeInstrumentor) (i : Nat) :
    Except String ArtifactFile :=
  if fail i then Except.error "renderer failure" else Except.ok (renderAt st i)

/-- Modelled from the spec: `finalize()` under a renderer failure oracle.
Every one of the eleven renderers is attempted; a failing renderer is
caught in isolation (its slot is `none`, standing for the logged failure)
and never prevents a sibling from running or propagates to the caller
(spec sections 4.4 and 7). -/
def finalize_resilient (fail : Nat → Bool) (st : RuntimeInstrumentor) :
    List (Option ArtifactFile) :=
  (List.range 11).map fun i => (renderTry fail st i).toOption

/-- The expected artifact file names of one session (spec section 4.4,
test `test_all_exports_generated`). -/
def expected_names (sid : String) : List String :=
  [sid ++ "_performance.json", sid ++ "_flamegraph.json",
   sid ++ "_sql_analysis.json", sid ++ "_live_metrics.json",
   sid ++ "_distributed_analysis.json", sid ++ "_sequence.puml",
   sid ++ "_summary.md", sid ++ "_llm_summary.txt",
   sid ++ "_architecture.mmd", sid ++ "_architecture.d2",
   sid ++ "_ascii.txt"]

/-- The wording of claim C6: a string contains a bare SQL keyword
(SELECT, INSERT, UPDATE or DELETE) as a substring.  Stated from the words
of the claim, to be compared with the pattern tables the detector actually
scans. -/
def claim_keyword_hit (s : String) : Bool :=
  ["SELECT", "INSERT", "UPDATE", "DELETE"].any fun p => containsSub p.data s.data

/-- The attacker-controlled module name of the injection-prevention test
(`test_injection_prevention`). -/
def mal_module : String := "test\";@enduml;@startuml"

/-- A CallRecord whose module name is the attacker-controlled injection
string. -/
def mal_record : FunctionCall :=
  { call_id := 0, function_name := "f", module := mal_module,
    file_path := "p", line_number := 1, start_time := 0 }

/-- An instrumentor state holding the injection record, used to exercise
the PlantUML escaping on a concrete attacker-controlled input. -/
def mal_state : RuntimeInstrumentor :=
  { session_id := "sess", calls := [mal_record], call_stacks := fun _ => [],
    call_counter := 1, enabled := true, max_calls := 50, now := 1 }

/-- The state invariant of the trace engine, combining the CallRecord
invariants of spec section 3 with the bookkeeping facts needed to preserve
them: call ids are the positions in the retained list and equal the
counter; the memory bound holds; every id on a thread stack denotes an
open record whose depth is its distance from the stack bottom; stacks are
duplicate-free and pairwise disjoint; a record is open exactly while its
id sits on a stack; timestamps are ordered; `duration_ms` is set exactly
when `end_time` is; and every record's depth, parent and entry-time
ancestor snapshot agree as section 3 requires. -/
structure EngineInv (s : RuntimeInstrumentor) : Prop where
  counter_eq : s.call_counter = s.calls.length
  cap_ok : s.calls.length ≤ s.max_calls
  id_idx : ∀ (i : Nat) (r : FunctionCall), s.calls[i]? = some r → r.call_id = i
  stack_bound : ∀ (t c : Nat), c ∈ s.call_stacks t → c < s.calls.length
  stack_depth : ∀ (t j c : Nat) (r : FunctionCall),
    (s.call_stacks t)[j]? = some c → s.calls[c]? = some r →
    r.depth = (s.call_stacks t).length - 1 - j
  stack_nodup : ∀ t : Nat, (s.call_stacks t).Nodup
  stack_disj : ∀ (t u c : Nat), c ∈ s.call_stacks t → c ∈ s.call_stacks u → t = u
  open_iff : ∀ (i : Nat) (r : FunctionCall), s.calls[i]? = some r →
    (r.end_time = none ↔ ∃ t : Nat, i ∈ s.call_stacks t)
  start_lt : ∀ (i : Nat) (r : FunctionCall), s.calls[i]? = some r →
    r.start_time < s.now
  end_ok : ∀ (i : Nat) (r : FunctionCall), s.calls[i]? = some r →
    ∀ e : Nat, r.end_time = some e → r.start_time ≤ e
  dur_iff : ∀ (i : Nat) (r : FunctionCall), s.calls[i]? = some r →
    (r.duration_ms.isSome ↔ r.end_time.isSome)
  parent_ok : ∀ (i : Nat) (r : FunctionCall), s.calls[i]? = some r →
    r.depth = r.ancestors.length ∧
    r.parent_id = r.ancestors.head? ∧
    (r.parent_id = none → r.depth = 0) ∧
    ∀ p : Nat, r.parent_id = some p → p < i ∧
      ∃ a : FunctionCall, s.calls[p]? = some a ∧ a.depth + 1 = r.depth

theorem updAt_length (l : List α) (i : Nat) (f : α → α) :
    (updAt l i f).length = l.length := by
  induction l generalizing i with
  | nil => rfl
  | cons x xs ih =>
    cases i with
    | zero => rfl
    | succ n => simp [updAt, ih]

theorem getElem?_updAt (l : List α) (i j : Nat) (f : α → α) :
    (updAt l i f)[j]? = if j = i then l[j]?.map f else l[j]? := by
  induction l generalizing i j with
  | nil => simp [updAt]
  | cons x xs ih =>
    cases i with
    | zero =>
      cases j with
      | zero => simp [updAt]
      | succ k => simp [updAt]
    | succ n =>
      cases j with
      | zero => simp [updAt]
      | succ k => simpa [updAt, Nat.succ_inj] using ih n k

theorem map_updAt (l : List α) (i : Nat) (f : α → α) (g : α → β)
    (hf : ∀ x, g (f x) = g x) : (updAt l i f).map g = l.map g := by
  induction l generalizing i with
  | nil => rfl
  | cons x xs ih =>
    cases i with
    | zero => simp [updAt, hf]
    | succ n => simp [updAt, ih]

theorem setStack_self (f : Nat → List Nat) (tid : Nat) (v : List Nat) :
    setStack f tid v tid = v := by
  simp [setStack]

theorem setStack_eval (f : Nat → List Nat) (tid u : Nat) (v : List Nat) :
    setStack f tid v u = if u = tid then v else f u := rfl

theorem closeCall_fields (t : Nat) (r : FunctionCall) :
    (closeCall t r).call_id = r.call_id ∧ (closeCall t r).depth = r.depth ∧
    (closeCall t r).parent_id = r.parent_id ∧
    (closeCall t r).ancestors = r.ancestors ∧
    (closeCall t r).start_time = r.start_time ∧
    (closeCall t r).exception = r.exception := by
  simp [closeCall]

theorem markExc_fields (m : String) (r : FunctionCall) :
    (markExc m r).call_id = r.call_id ∧ (markExc m r).depth = r.depth ∧
    (markExc m r).parent_id = r.parent_id ∧
    (markExc m r).ancestors = r.ancestors ∧
    (markExc m r).start_time = r.start_time ∧
    (markExc m r).end_time = r.end_time ∧
    (markExc m r).duration_ms = r.duration_ms := by
  simp [markExc]

theorem mem_iff_getElem? (l : List α) (a : α) : a ∈ l ↔ ∃ i : Nat, l[i]? = some a := by
  constructor
  · intro h
    obtain ⟨i, hi, rfl⟩ := List.getElem_of_mem h
    exact ⟨i, by simp [List.getElem?_eq_getElem hi]⟩
  · rintro ⟨i, hi⟩
    exact List.getElem?_mem hi

theorem getElem?_concat_cases {l : List α} {a x : α} {i : Nat}
    (h : (l ++ [a])[i]? = some x) :
    (i < l.length ∧ l[i]? = some x) ∨ (i = l.length ∧ x = a) := by
  rcases Nat.lt_or_ge i l.length with hlt | hge
  · exact Or.inl ⟨hlt, by rwa [List.getElem?_append_left hlt] at h⟩
  · have hi : i < l.length + 1 := by
      have := (List.getElem?_eq_some.mp h).1
      simpa using this
    have heq : i = l.length := Nat.le_antisymm (Nat.lt_succ_iff.mp hi) hge
    subst heq
    rw [List.getElem?_concat_length] at h
    exact Or.inr ⟨rfl, (Option.some_inj.mp h).symm⟩

theorem getElem?_some_lt {l : List α} {x : α} {i : Nat} (h : l[i]? = some x) :
    i < l.length :=
  (List.getElem?_eq_some.mp h).1

theorem enterRecord_fields (st : RuntimeInstrumentor) (tid : Nat) (site : Site)
    (locals : List (String × PyValue)) :
    (enterRecord st tid site locals).call_id = st.call_counter ∧
    (enterRecord st tid site locals).depth = (st.call_stacks tid).length ∧
    (enterRecord st tid site locals).parent_id = (st.call_stacks tid).head? ∧
    (enterRecord st tid site locals).ancestors = st.call_stacks tid ∧
    (enterRecord st tid site locals).start_time = st.now ∧
    (enterRecord st tid site locals).end_time = none ∧
    (enterRecord st tid site locals).duration_ms = none ∧
    (enterRecord st tid site locals).exception = none := by
  simp [enterRecord, detect_patterns_in_frame, new_function_call]

theorem traceStep_enter_pos (st : RuntimeInstrumentor) (tid : Nat) (site : Site)
    (locals : List (String × PyValue))
    (h : (st.enabled && decide (st.calls.length < st.max_calls)) = true) :
    traceStep st (.enter tid site locals) =
      { st with
        calls := st.calls ++ [enterRecord st tid site locals]
        call_counter := st.call_counter + 1
        call_stacks := setStack st.call_stacks tid
          (st.call_counter :: st.call_stacks tid)
        now := st.now + 1 } := by
  simp [traceStep, h]

theorem traceStep_enter_neg (st : RuntimeInstrumentor) (tid : Nat) (site : Site)
    (locals : List (String × PyValue))
    (h : (st.enabled && decide (st.calls.length < st.max_calls)) = false) :
    traceStep st (.enter tid site locals) =
      { st with enabled := false, now := st.now + 1 } := by
  simp [traceStep, h]

theorem traceStep_exc_nil (st : RuntimeInstrumentor) (tid : Nat) (m : String)
    (h : st.call_stacks tid = []) :
    traceStep st (.exc tid m) = { st with now := st.now + 1 } := by
  simp [traceStep, h]

theorem traceStep_exc_cons (st : RuntimeInstrumentor) (tid : Nat) (m : String)
    (c : Nat) (rest : List Nat) (h : st.call_stacks tid = c :: rest) :
    traceStep st (.exc tid m) =
      { st with calls := updAt st.calls c (markExc m), now := st.now + 1 } := by
  simp [traceStep, h]

theorem traceStep_ret_nil (st : RuntimeInstrumentor) (tid : Nat)
    (h : st.call_stacks tid = []) :
    traceStep st (.ret tid) = { st with now := st.now + 1 } := by
  simp [traceStep, h]

theorem traceStep_ret_cons (st : RuntimeInstrumentor) (tid : Nat)
    (c : Nat) (rest : List Nat) (h : st.call_stacks tid = c :: rest) :
    traceStep st (.ret tid) =
      { st with
        calls := updAt st.calls c (closeCall st.now)
        call_stacks := setStack st.call_stacks tid rest
        now := st.now + 1 } := by
  simp [traceStep, h]

theorem engineInv_enabled_tick (s : RuntimeInstrumentor) (b : Bool)
    (hs : EngineInv s) : EngineInv { s with enabled := b, now := s.now + 1 } := by
  obtain ⟨h1, h2, h3, h4, h5, h6, h7, h8, h9, h10, h11, h12⟩ := hs
  exact ⟨h1, h2, h3, h4, h5, h6, h7, h8,
    fun i r h => Nat.lt_succ_of_lt (h9 i r h), h10, h11, h12⟩

theorem engineInv_updAt (s : RuntimeInstrumentor) (hs : EngineInv s)
    (c0 : Nat) (f : FunctionCall → FunctionCall)
    (hfid : ∀ r, (f r).call_id = r.call_id)
    (hfdep : ∀ r, (f r).depth = r.depth)
    (hfpar : ∀ r, (f r).parent_id = r.parent_id)
    (hfanc : ∀ r, (f r).ancestors = r.ancestors)
    (hfst : ∀ r, (f r).start_time = r.start_time)
    (hfend : ∀ r, (f r).end_time = r.end_time)
    (hfdur : ∀ r, (f r).duration_ms = r.duration_ms) :
    EngineInv { s with calls := updAt s.calls c0 f, now := s.now + 1 } := by
  have hget : ∀ (i : Nat) (r : FunctionCall), (updAt s.calls c0 f)[i]? = some r →
      ∃ r0 : FunctionCall, s.calls[i]? = some r0 ∧ (r = r0 ∨ r = f r0) := by
    intro i r h
    rw [getElem?_updAt] at h
    by_cases hi : i = c0
    · rw [if_pos hi] at h
      cases h0 : s.calls[i]? with
      | none => rw [h0] at h; simp at h
      | some r0 =>
        rw [h0] at h
        simp only [Option.map_some'] at h
        exact ⟨r0, rfl, Or.inr (Option.some_inj.mp h).symm⟩
    · rw [if_neg hi] at h
      exact ⟨r, h, Or.inl rfl⟩
  have hget2 : ∀ (p : Nat) (a : FunctionCall), s.calls[p]? = some a →
      ∃ a2 : FunctionCall, (updAt s.calls c0 f)[p]? = some a2 ∧ a2.depth = a.depth := by
    intro p a ha
    rw [getElem?_updAt]
    by_cases hp : p = c0
    · rw [if_pos hp, ha]
      exact ⟨f a, rfl, hfdep a⟩
    · rw [if_neg hp]
      exact ⟨a, ha, rfl⟩
  constructor
  · show s.call_counter = (updAt s.calls c0 f).length
    rw [updAt_length]; exact hs.counter_eq
  · show (updAt s.calls c0 f).length ≤ s.max_calls
    rw [updAt_length]; exact hs.cap_ok
  · intro i r h
    obtain ⟨r0, h0, hor⟩ := hget i r h
    have hbase := hs.id_idx i r0 h0
    rcases hor with rfl | rfl
    · exact hbase
    · rw [hfid]; exact hbase
  · intro t c hc
    show c < (updAt s.calls c0 f).length
    rw [updAt_length]; exact hs.stack_bound t c hc
  · intro t j c r hstk hcall
    obtain ⟨r0, h0, hor⟩ := hget c r hcall
    have hbase := hs.stack_depth t j c r0 hstk h0
    rcases hor with rfl | rfl
    · exact hbase
    · rw [hfdep]; exact hbase
  · exact hs.stack_nodup
  · exact hs.stack_disj
  · intro i r h
    obtain ⟨r0, h0, hor⟩ := hget i r h
    have hiff := hs.open_iff i r0 h0
    have hEq : r.end_time = r0.end_time := by
      rcases hor with rfl | rfl
      · rfl
      · exact hfend r0
    rw [hEq]; exact hiff
  · intro i r h
    obtain ⟨r0, h0, hor⟩ := hget i r h
    have hlt := hs.start_lt i r0 h0
    have hEq : r.start_time = r0.start_time := by
      rcases hor with rfl | rfl
      · rfl
      · exact hfst r0
    rw [hEq]
    exact Nat.lt_succ_of_lt hlt
  · intro i r h e he
    obtain ⟨r0, h0, hor⟩ := hget i r h
    have hE : r.end_time = r0.end_time := by
      rcases hor with rfl | rfl
      · rfl
      · exact hfend r0
    have hS : r.start_time = r0.start_time := by
      rcases hor with rfl | rfl
      · rfl
      · exact hfst r0
    rw [hS]
    exact hs.end_ok i r0 h0 e (by rw [← hE]; exact he)
  · intro i r h
    obtain ⟨r0, h0, hor⟩ := hget i r h
    have hE : r.end_time = r0.end_time := by
      rcases hor with rfl | rfl
      · rfl
      · exact hfend r0
    have hD : r.duration_ms = r0.duration_ms := by
      rcases hor with rfl | rfl
      · rfl
      · exact hfdur r0
    rw [hE, hD]
    exact hs.dur_iff i r0 h0
  · intro i r h
    obtain ⟨r0, h0, hor⟩ := hget i r h
    have hFd : r.depth = r0.depth := by
      rcases hor with rfl | rfl
      · rfl
      · exact hfdep r0
    have hFp : r.parent_id = r0.parent_id := by
      rcases hor with rfl | rfl
      · rfl
      · exact hfpar r0
    have hFa : r.ancestors = r0.ancestors := by
      rcases hor with rfl | rfl
      · rfl
      · exact hfanc r0
    obtain ⟨P1, P2, P3, P4⟩ := hs.parent_ok i r0 h0
    refine ⟨by rw [hFd, hFa]; exact P1, by rw [hFp, hFa]; exact P2, ?_, ?_⟩
    · intro hn
      rw [hFp] at hn
      rw [hFd]
      exact P3 hn
    · intro p hp
      rw [hFp] at hp
      obtain ⟨hpi, a, ha, hda⟩ := P4 p hp
      obtain ⟨a2, ha2, hd2⟩ := hget2 p a ha
      exact ⟨hpi, a2, ha2, by rw [hd2, hFd]; exact hda⟩

theorem engineInv_enter_pos (s : RuntimeInstrumentor) (tid : Nat) (site : Site)
    (locals : List (String × PyValue))
    (hcond : (s.enabled && decide (s.calls.length < s.max_calls)) = true)
    (hs : EngineInv s) : EngineInv (traceStep s (.enter tid site locals)) := by
  have hlen : s.calls.length < s.max_calls := by
    have h2 := (Bool.and_eq_true _ _).mp hcond
    exact of_decide_eq_true h2.2
  rw [traceStep_enter_pos s tid site locals hcond]
  obtain ⟨hid, hdep, hpar, hanc, hstart, hend, hdur, hexc⟩ :=
    enterRecord_fields s tid site locals
  set r := enterRecord s tid site locals with hrdef
  have hcnt := hs.counter_eq
  refine EngineInv.mk ?_ ?_ ?_ ?_ ?_ ?_ ?_ ?_ ?_ ?_ ?_ ?_ <;> dsimp only
  · simp [hcnt]
  · simpa using hlen
  · intro i r' h
    rcases getElem?_concat_cases h with ⟨hlt, hold⟩ | ⟨heq, rfl⟩
    · exact hs.id_idx i r' hold
    · rw [hid, hcnt, heq]
  · intro t c hc
    simp only [List.length_append, List.length_singleton]
    by_cases ht : t = tid
    · rw [ht, setStack_self] at hc
      rcases List.mem_cons.mp hc with rfl | hmem
      · omega
      · exact Nat.lt_succ_of_lt (hs.stack_bound tid c hmem)
    · rw [setStack_eval, if_neg ht] at hc
      exact Nat.lt_succ_of_lt (hs.stack_bound t c hc)
  · intro t j c r' hstk hcall
    by_cases ht : t = tid
    · rw [ht, setStack_self] at hstk
      rw [ht, setStack_self]
      cases j with
      | zero =>
        simp only [List.getElem?_cons_zero, Option.some_inj] at hstk
        subst hstk
        rw [hcnt] at hcall
        rw [List.getElem?_concat_length] at hcall
        have hre : r' = r := (Option.some_inj.mp hcall).symm
        subst hre
        rw [hdep]
        simp only [List.length_cons]
        omega
      | succ k =>
        simp only [List.getElem?_cons_succ] at hstk
        have hcmem : c ∈ s.call_stacks tid := List.getElem?_mem hstk
        have hclt : c < s.calls.length := hs.stack_bound tid c hcmem
        rw [List.getElem?_append_left hclt] at hcall
        have hbase := hs.stack_depth tid k c r' hstk hcall
        simp only [List.length_cons]
        omega
    · rw [setStack_eval, if_neg ht] at hstk ⊢
      have hcmem : c ∈ s.call_stacks t := List.getElem?_mem hstk
      have hclt : c < s.calls.length := hs.stack_bound t c hcmem
      rw [List.getElem?_append_left hclt] at hcall
      exact hs.stack_depth t j c r' hstk hcall
  · intro t
    by_cases ht : t = tid
    · rw [ht, setStack_self]
      refine List.Nodup.cons ?_ (hs.stack_nodup tid)
      intro hmem
      have := hs.stack_bound tid s.call_counter hmem
      omega
    · rw [setStack_eval, if_neg ht]
      exact hs.stack_nodup t
  · intro t u c hct hcu
    by_cases ht : t = tid <;> by_cases hu : u = tid
    · rw [ht, hu]
    · rw [ht, setStack_self] at hct
      rw [setStack_eval, if_neg hu] at hcu
      rcases List.mem_cons.mp hct with rfl | hmem
      · exact absurd (hs.stack_bound u s.call_counter hcu) (by omega)
      · rw [ht]
        exact hs.stack_disj tid u c hmem hcu
    · rw [hu, setStack_self] at hcu
      rw [setStack_eval, if_neg ht] at hct
      rcases List.mem_cons.mp hcu with rfl | hmem
      · exact absurd (hs.stack_bound t s.call_counter hct) (by omega)
      · rw [hu]
        exact hs.stack_disj t tid c hct hmem
    · rw [setStack_eval, if_neg ht] at hct
      rw [setStack_eval, if_neg hu] at hcu
      exact hs.stack_disj t u c hct hcu
  · intro i r' h
    rcases getElem?_concat_cases h with ⟨hlt, hold⟩ | ⟨heq, rfl⟩
    · rw [hs.open_iff i r' hold]
      constructor
      · rintro ⟨t, hmem⟩
        refine ⟨t, ?_⟩
        by_cases ht : t = tid
        · rw [ht, setStack_self]
          rw [ht] at hmem
          exact List.mem_cons_of_mem _ hmem
        · rw [setStack_eval, if_neg ht]
          exact hmem
      · rintro ⟨t, hmem⟩
        by_cases ht : t = tid
        · rw [ht, setStack_self] at hmem
          rcases List.mem_cons.mp hmem with rfl | hmem2
          · exact absurd hlt (by omega)
          · exact ⟨tid, hmem2⟩
        · rw [setStack_eval, if_neg ht] at hmem
          exact ⟨t, hmem⟩
    · subst heq
      have hwit : ∃ t : Nat, s.calls.length ∈
          setStack s.call_stacks tid (s.call_counter :: s.call_stacks tid) t := by
        refine ⟨tid, ?_⟩
        rw [setStack_self, ← hcnt]
        exact List.mem_cons_self _ _
      exact iff_of_true hend hwit
  · intro i r' h
    rcases getElem?_concat_cases h with ⟨hlt, hold⟩ | ⟨heq, rfl⟩
    · exact Nat.lt_succ_of_lt (hs.start_lt i r' hold)
    · rw [hstart]
      omega
  · intro i r' h e he
    rcases getElem?_concat_cases h with ⟨hlt, hold⟩ | ⟨heq, rfl⟩
    · exact hs.end_ok i r' hold e he
    · rw [hend] at he
      exact Option.noConfusion he
  · intro i r' h
    rcases getElem?_concat_cases h with ⟨hlt, hold⟩ | ⟨heq, rfl⟩
    · exact hs.dur_iff i r' hold
    · rw [hend, hdur]
  · intro i r' h
    rcases getElem?_concat_cases h with ⟨hlt, hold⟩ | ⟨heq, rfl⟩
    · obtain ⟨P1, P2, P3, P4⟩ := hs.parent_ok i r' hold
      refine ⟨P1, P2, P3, ?_⟩
      intro p hp
      obtain ⟨hpi, a, ha, hda⟩ := P4 p hp
      have hplt : p < s.calls.length := getElem?_some_lt ha
      refine ⟨hpi, a, ?_, hda⟩
      rw [List.getElem?_append_left hplt]
      exact ha
    · subst heq
      refine ⟨by rw [hdep, hanc], by rw [hpar, hanc], ?_, ?_⟩
      · intro hn
        rw [hpar] at hn
        rw [hdep]
        rw [List.head?_eq_none_iff] at hn
        rw [hn]
        rfl
      · intro p hp
        rw [hpar] at hp
        cases hstk : s.call_stacks tid with
        | nil =>
          rw [hstk] at hp
          exact Option.noConfusion hp
        | cons c0 rest =>
          rw [hstk] at hp
          simp only [List.head?_cons, Option.some_inj] at hp
          cases hp
          have hpmem : p ∈ s.call_stacks tid := by
            rw [hstk]
            exact List.mem_cons_self _ _
          have hplt : p < s.calls.length := hs.stack_bound tid p hpmem
          have hsome := List.getElem?_eq_getElem hplt
          refine ⟨hplt, s.calls[p], ?_, ?_⟩
          · rw [List.getElem?_append_left hplt]
            exact hsome
          · have hd := hs.stack_depth tid 0 p s.calls[p]
              (by rw [hstk]; simp) hsome
            rw [hdep]
            rw [hstk] at hd ⊢
            simp only [List.length_cons] at hd ⊢
            omega

theorem engineInv_ret_cons (s : RuntimeInstrumentor) (tid c0 : Nat)
    (rest : List Nat) (hstk : s.call_stacks tid = c0 :: rest)
    (hs : EngineInv s) : EngineInv (traceStep s (.ret tid)) := by
  rw [traceStep_ret_cons s tid c0 rest hstk]
  have hc0mem : c0 ∈ s.call_stacks tid := by
    rw [hstk]
    exact List.mem_cons_self _ _
  have hc0lt : c0 < s.calls.length := hs.stack_bound tid c0 hc0mem
  have hnod := hs.stack_nodup tid
  have hc0rest : c0 ∉ rest := by
    rw [hstk] at hnod
    exact (List.nodup_cons.mp hnod).1
  have hget : ∀ (i : Nat) (r : FunctionCall),
      (updAt s.calls c0 (closeCall s.now))[i]? = some r →
      ∃ r0 : FunctionCall, s.calls[i]? = some r0 ∧
        (r = r0 ∨ r = closeCall s.now r0) := by
    intro i r h
    rw [getElem?_updAt] at h
    by_cases hi : i = c0
    · rw [if_pos hi] at h
      cases h0 : s.calls[i]? with
      | none => rw [h0] at h; simp at h
      | some r0 =>
        rw [h0] at h
        simp only [Option.map_some'] at h
        exact ⟨r0, rfl, Or.inr (Option.some_inj.mp h).symm⟩
    · rw [if_neg hi] at h
      exact ⟨r, h, Or.inl rfl⟩
  have hget2 : ∀ (p : Nat) (a : FunctionCall), s.calls[p]? = some a →
      ∃ a2 : FunctionCall, (updAt s.calls c0 (closeCall s.now))[p]? = some a2 ∧
        a2.depth = a.depth := by
    intro p a ha
    rw [getElem?_updAt]
    by_cases hp : p = c0
    · rw [if_pos hp, ha]
      exact ⟨closeCall s.now a, rfl, rfl⟩
    · rw [if_neg hp]
      exact ⟨a, ha, rfl⟩
  refine EngineInv.mk ?_ ?_ ?_ ?_ ?_ ?_ ?_ ?_ ?_ ?_ ?_ ?_ <;> dsimp only
  · rw [updAt_length]
    exact hs.counter_eq
  · rw [updAt_length]
    exact hs.cap_ok
  · intro i r h
    obtain ⟨r0, h0, hor⟩ := hget i r h
    have hbase := hs.id_idx i r0 h0
    rcases hor with rfl | rfl
    · exact hbase
    · exact hbase
  · intro t c hc
    rw [updAt_length]
    by_cases ht : t = tid
    · rw [ht, setStack_self] at hc
      refine hs.stack_bound tid c ?_
      rw [hstk]
      exact List.mem_cons_of_mem _ hc
    · rw [setStack_eval, if_neg ht] at hc
      exact hs.stack_bound t c hc
  · intro t j c r hstk2 hcall
    obtain ⟨r0, h0, hor⟩ := hget c r hcall
    have hdeq : r.depth = r0.depth := by
      rcases hor with rfl | rfl
      · rfl
      · rfl
    by_cases ht : t = tid
    · rw [ht, setStack_self] at hstk2
      rw [ht, setStack_self]
      have hbase := hs.stack_depth tid (j + 1) c r0
        (by rw [hstk]; simpa using hstk2) h0
      rw [hstk] at hbase
      simp only [List.length_cons] at hbase
      rw [hdeq]
      omega
    · rw [setStack_eval, if_neg ht] at hstk2 ⊢
      rw [hdeq]
      exact hs.stack_depth t j c r0 hstk2 h0
  · intro t
    by_cases ht : t = tid
    · rw [ht, setStack_self]
      rw [hstk] at hnod
      exact (List.nodup_cons.mp hnod).2
    · rw [setStack_eval, if_neg ht]
      exact hs.stack_nodup t
  · intro t u c hct hcu
    have hmemt : c ∈ setStack s.call_stacks tid rest t → c ∈ s.call_stacks t := by
      intro hmem
      by_cases ht : t = tid
      · rw [ht, setStack_self] at hmem
        rw [ht, hstk]
        exact List.mem_cons_of_mem _ hmem
      · rwa [setStack_eval, if_neg ht] at hmem
    have hmemu : c ∈ setStack s.call_stacks tid rest u → c ∈ s.call_stacks u := by
      intro hmem
      by_cases hu : u = tid
      · rw [hu, setStack_self] at hmem
        rw [hu, hstk]
        exact List.mem_cons_of_mem _ hmem
      · rwa [setStack_eval, if_neg hu] at hmem
    exact hs.stack_disj t u c (hmemt hct) (hmemu hcu)
  · intro i r h
    by_cases hi : i = c0
    · subst hi
      rw [getElem?_updAt, if_pos rfl] at h
      cases h0 : s.calls[i]? with
      | none => rw [h0] at h; simp at h
      | some r0 =>
        rw [h0] at h
        simp only [Option.map_some', Option.some_inj] at h
        have hclosed : r.end_time = some s.now := by
          rw [← h]
          rfl
        rw [hclosed]
        refine iff_of_false (by simp) ?_
        rintro ⟨u, hmem⟩
        by_cases hu : u = tid
        · rw [hu, setStack_self] at hmem
          exact hc0rest hmem
        · rw [setStack_eval, if_neg hu] at hmem
          exact hu (hs.stack_disj u tid i hmem hc0mem)
    · rw [getElem?_updAt, if_neg hi] at h
      rw [hs.open_iff i r h]
      constructor
      · rintro ⟨u, hmem⟩
        by_cases hu : u = tid
        · rw [hu, hstk] at hmem
          rcases List.mem_cons.mp hmem with rfl | hmem2
          · exact absurd rfl hi
          · exact ⟨tid, by rw [setStack_self]; exact hmem2⟩
        · exact ⟨u, by rw [setStack_eval, if_neg hu]; exact hmem⟩
      · rintro ⟨u, hmem⟩
        by_cases hu : u = tid
        · rw [hu, setStack_self] at hmem
          refine ⟨tid, ?_⟩
          rw [hstk]
          exact List.mem_cons_of_mem _ hmem
        · rw [setStack_eval, if_neg hu] at hmem
          exact ⟨u, hmem⟩
  · intro i r h
    obtain ⟨r0, h0, hor⟩ := hget i r h
    have hS : r.start_time = r0.start_time := by
      rcases hor with rfl | rfl
      · rfl
      · rfl
    rw [hS]
    exact Nat.lt_succ_of_lt (hs.start_lt i r0 h0)
  · intro i r h e he
    by_cases hi : i = c0
    · subst hi
      rw [getElem?_updAt, if_pos rfl] at h
      cases h0 : s.calls[i]? with
      | none => rw [h0] at h; simp at h
      | some r0 =>
        rw [h0] at h
        simp only [Option.map_some', Option.some_inj] at h
        have hclosed : r.end_time = some s.now := by
          rw [← h]
          rfl
        rw [hclosed] at he
        have he2 : e = s.now := (Option.some_inj.mp he).symm
        have hS : r.start_time = r0.start_time := by
          rw [← h]
          rfl
        rw [hS, he2]
        exact Nat.le_of_lt (hs.start_lt i r0 h0)
    · rw [getElem?_updAt, if_neg hi] at h
      exact hs.end_ok i r h e he
  · intro i r h
    by_cases hi : i = c0
    · subst hi
      rw [getElem?_updAt, if_pos rfl] at h
      cases h0 : s.calls[i]? with
      | none => rw [h0] at h; simp at h
      | some r0 =>
        rw [h0] at h
        simp only [Option.map_some', Option.some_inj] at h
        have h1 : r.end_time = some s.now := by
          rw [← h]
          rfl
        have h2 : r.duration_ms = some (s.now - r0.start_time) := by
          rw [← h]
          rfl
        rw [h1, h2]
        simp
    · rw [getElem?_updAt, if_neg hi] at h
      exact hs.dur_iff i r h
  · intro i r h
    obtain ⟨r0, h0, hor⟩ := hget i r h
    have hFd : r.depth = r0.depth := by
      rcases hor with rfl | rfl
      · rfl
      · rfl
    have hFp : r.parent_id = r0.parent_id := by
      rcases hor with rfl | rfl
      · rfl
      · rfl
    have hFa : r.ancestors = r0.ancestors := by
      rcases hor with rfl | rfl
      · rfl
      · rfl
    obtain ⟨P1, P2, P3, P4⟩ := hs.parent_ok i r0 h0
    refine ⟨by rw [hFd, hFa]; exact P1, by rw [hFp, hFa]; exact P2, ?_, ?_⟩
    · intro hn
      rw [hFp] at hn
      rw [hFd]
      exact P3 hn
    · intro p hp
      rw [hFp] at hp
      obtain ⟨hpi, a, ha, hda⟩ := P4 p hp
      obtain ⟨a2, ha2, hd2⟩ := hget2 p a ha
      exact ⟨hpi, a2, ha2, by rw [hd2, hFd]; exact hda⟩

theorem engineInv_step (s : RuntimeInstrumentor) (ev : TEvent)
    (hs : EngineInv s) : EngineInv (traceStep s ev) := by
  cases ev with
  | enter tid site locals =>
    cases hcond : (s.enabled && decide (s.calls.length < s.max_calls)) with
    | true => exact engineInv_enter_pos s tid site locals hcond hs
    | false =>
      rw [traceStep_enter_neg s tid site locals hcond]
      exact engineInv_enabled_tick s false hs
  | exc tid m =>
    cases hstk : s.call_stacks tid with
    | nil =>
      rw [traceStep_exc_nil s tid m hstk]
      exact engineInv_enabled_tick s s.enabled hs
    | cons c0 rest =>
      rw [traceStep_exc_cons s tid m c0 rest hstk]
      exact engineInv_updAt s hs c0 (markExc m)
        (fun r => rfl) (fun r => rfl) (fun r => rfl) (fun r => rfl)
        (fun r => rfl) (fun r => rfl) (fun r => rfl)
  | ret tid =>
    cases hstk : s.call_stacks tid with
    | nil =>
      rw [traceStep_ret_nil s tid hstk]
      exact engineInv_enabled_tick s s.enabled hs
    | cons c0 rest => exact engineInv_ret_cons s tid c0 rest hstk hs

theorem engineInv_init (maxCalls : Nat) (sid : String) :
    EngineInv (initState maxCalls sid) := by
  refine EngineInv.mk ?_ ?_ ?_ ?_ ?_ ?_ ?_ ?_ ?_ ?_ ?_ ?_ <;>
    simp [initState]

theorem engineInv_runFrom (s : RuntimeInstrumentor) (evs : List TEvent)
    (hs : EngineInv s) : EngineInv (runFrom s evs) := by
  induction evs generalizing s with
  | nil => exact hs
  | cons ev rest ih => exact ih (traceStep s ev) (engineInv_step s ev hs)

theorem engineInv_run (maxCalls : Nat) (sid : String) (evs : List TEvent) :
    EngineInv (runEvents maxCalls sid evs) :=
  engineInv_runFrom _ evs (engineInv_init maxCalls sid)

theorem traceStep_const_fields (s : RuntimeInstrumentor) (ev : TEvent) :
    (traceStep s ev).max_calls = s.max_calls ∧
    (traceStep s ev).session_id = s.session_id := by
  cases ev with
  | enter tid site locals =>
    cases hcond : (s.enabled && decide (s.calls.length < s.max_calls)) with
    | true => rw [traceStep_enter_pos s tid site locals hcond]; exact ⟨rfl, rfl⟩
    | false => rw [traceStep_enter_neg s tid site locals hcond]; exact ⟨rfl, rfl⟩
  | exc tid m =>
    cases hstk : s.call_stacks tid with
    | nil => rw [traceStep_exc_nil s tid m hstk]; exact ⟨rfl, rfl⟩
    | cons c0 rest => rw [traceStep_exc_cons s tid m c0 rest hstk]; exact ⟨rfl, rfl⟩
  | ret tid =>
    cases hstk : s.call_stacks tid with
    | nil => rw [traceStep_ret_nil s tid hstk]; exact ⟨rfl, rfl⟩
    | cons c0 rest => rw [traceStep_ret_cons s tid c0 rest hstk]; exact ⟨rfl, rfl⟩

theorem runFrom_const_fields (s : RuntimeInstrumentor) (evs : List TEvent) :
    (runFrom s evs).max_calls = s.max_calls ∧
    (runFrom s evs).session_id = s.session_id := by
  induction evs generalizing s with
  | nil => exact ⟨rfl, rfl⟩
  | cons ev rest ih =>
    have h1 := traceStep_const_fields s ev
    have h2 := ih (traceStep s ev)
    exact ⟨h2.1.trans h1.1, h2.2.trans h1.2⟩

theorem calls_ids_prefix_step (s : RuntimeInstrumentor) (ev : TEvent) :
    s.calls.map FunctionCall.call_id <+:
      (traceStep s ev).calls.map FunctionCall.call_id := by
  cases ev with
  | enter tid site locals =>
    cases hcond : (s.enabled && decide (s.calls.length < s.max_calls)) with
    | true =>
      rw [traceStep_enter_pos s tid site locals hcond]
      exact ⟨[(enterRecord s tid site locals).call_id], by simp⟩
    | false =>
      rw [traceStep_enter_neg s tid site locals hcond]
  | exc tid m =>
    cases hstk : s.call_stacks tid with
    | nil => rw [traceStep_exc_nil s tid m hstk]
    | cons c0 rest =>
      rw [traceStep_exc_cons s tid m c0 rest hstk]
      rw [map_updAt s.calls c0 (markExc m) FunctionCall.call_id (fun r => rfl)]
  | ret tid =>
    cases hstk : s.call_stacks tid with
    | nil => rw [traceStep_ret_nil s tid hstk]
    | cons c0 rest =>
      rw [traceStep_ret_cons s tid c0 rest hstk]
      rw [map_updAt s.calls c0 (closeCall s.now) FunctionCall.call_id
        (fun r => rfl)]

theorem calls_ids_prefix_runFrom (s : RuntimeInstrumentor) (evs : List TEvent) :
    s.calls.map FunctionCall.call_id <+:
      (runFrom s evs).calls.map FunctionCall.call_id := by
  induction evs generalizing s with
  | nil => exact List.prefix_refl _
  | cons ev rest ih =>
    exact (calls_ids_prefix_step s ev).trans (ih (traceStep s ev))

theorem interior_lines_eq (x y : String) (M : List String) (z : String) :
    (((x :: y :: M) ++ [z]).drop 1).dropLast = y :: M := by
  have h : (x :: y :: M) ++ [z] = x :: ((y :: M) ++ [z]) := rfl
  rw [h, List.drop_one, List.tail_cons, List.dropLast_concat]

theorem escapePuml_mem (s : String) (c : Char)
    (h : c ∈ (escapePuml s).data) :
    c ≠ '@' ∧ c ≠ '\n' ∧ c ≠ '"' ∧ c ≠ '\r' := by
  obtain ⟨d, hd, he⟩ := List.mem_map.mp h
  cases hc : (decide (d = '@') || decide (d = '"') || decide (d = '\n') ||
      decide (d = '\r')) with
  | true =>
    rw [hc, if_pos rfl] at he
    subst he
    exact ⟨by decide, by decide, by decide, by decide⟩
  | false =>
    rw [hc] at he
    rw [if_neg (by simp)] at he
    subst he
    simp only [Bool.or_eq_false_iff, decide_eq_false_iff_not] at hc
    exact ⟨hc.1.1.1, hc.1.2, hc.1.1.2, hc.2⟩

/-- C1: for every traced run, finalize() produces exactly eleven artifact
files, named with the session identifier prefix and the eleven artifact
suffixes (performance.json, flamegraph.json, sql_analysis.json,
live_metrics.json, distributed_analysis.json, .puml, _summary.md,
_llm_summary.txt, _architecture.mmd, _architecture.d2, _ascii.txt); this
holds in particular for a run with zero captured CallRecords, in which
case the artifacts are still produced with well-formed empty content
(zero query statistics, empty query and frame lists, and a minimal valid
PlantUML document). -/
theorem c1_finalize_eleven_artifacts :
    ∀ st : RuntimeInstrumentor,
      (finalize st).map ArtifactFile.name = expected_names st.session_id ∧
      (finalize st).length = 11 ∧
      (st.calls = [] →
        sql_total_queries st = 0 ∧
        all_sql_queries st = [] ∧
        st.calls.map frameJson = [] ∧
        plantuml_lines st =
          ["@startuml", "title Session " ++ escapePuml st.session_id,
           "@enduml"]) := by
  intro st
  refine ⟨rfl, rfl, ?_⟩
  intro h
  refine ⟨?_, ?_, ?_, ?_⟩
  · simp [sql_total_queries, h]
  · simp [all_sql_queries, h]
  · simp [h]
  · simp [plantuml_lines, h]

theorem c1_witness :
    (finalize (initState 50 "sess1")).length = 11 ∧
    sql_total_queries (initState 50 "sess1") = 0 := by
  refine ⟨(c1_finalize_eleven_artifacts (initState 50 "sess1")).2.1, ?_⟩
  exact ((c1_finalize_eleven_artifacts (initState 50 "sess1")).2.2 rfl).1

/-- C2: finalize() never raises to its caller under internal renderer
failures: for every failure oracle, all eleven renderer slots are
attempted, every non-failing renderer still produces exactly its own
artifact (failures are isolated and do not block siblings), and a failing
renderer surfaces as a caught error whose slot is recorded as a logged
failure rather than an exception propagating out of finalize. -/
theorem c2_finalize_isolates_failures :
    ∀ (fail : Nat → Bool) (st : RuntimeInstrumentor),
      (finalize_resilient fail st).length = 11 ∧
      (∀ i : Nat, i < 11 → fail i = false →
        (finalize_resilient fail st).getD i none = some (renderAt st i)) ∧
      (∀ i : Nat, i < 11 → fail i = true →
        (finalize_resilient fail st).getD i none = none ∧
        renderTry fail st i = Except.error "renderer failure") := by
  intro fail st
  refine ⟨by simp [finalize_resilient], ?_, ?_⟩
  · intro i hi hf
    simp [finalize_resilient, List.getD_eq_getElem?_getD, List.getElem?_map,
      List.getElem?_range hi, renderTry, hf, Except.toOption]
  · intro i hi hf
    constructor
    · simp [finalize_resilient, List.getD_eq_getElem?_getD, List.getElem?_map,
        List.getElem?_range hi, renderTry, hf, Except.toOption]
    · simp [renderTry, hf]

theorem c2_witness :
    (finalize_resilient (fun i => decide (i = 2)) (initState 7 "w2")).getD 0
        none = some (renderAt (initState 7 "w2") 0) ∧
    (finalize_resilient (fun i => decide (i = 2)) (initState 7 "w2")).getD 2
        none = none := by
  refine ⟨?_, ?_⟩
  · exact (c2_finalize_isolates_failures (fun i => decide (i = 2))
      (initState 7 "w2")).2.1 0 (by decide) (by decide)
  · exact ((c2_finalize_isolates_failures (fun i => decide (i = 2))
      (initState 7 "w2")).2.2 2 (by decide) (by decide)).1

/-- C3: for every run of the trace engine and every retained CallRecord,
`depth` equals the number of open ancestor calls on the owning thread
stack at entry time (the entry-time ancestor snapshot), zero for roots;
`parent_id` is the top of that snapshot, so for a direct nesting the child
record points at the caller record; and every non-null `parent_id`
references a record allocated strictly earlier whose depth is exactly one
less. -/
theorem c3_depth_parent_invariant :
    ∀ (maxCalls : Nat) (sid : String) (evs : List TEvent) (r : FunctionCall),
      r ∈ (runEvents maxCalls sid evs).calls →
      r.depth = r.ancestors.length ∧
      r.parent_id = r.ancestors.head? ∧
      (r.parent_id = none → r.depth = 0) ∧
      (∀ p : Nat, r.parent_id = some p →
        p < r.call_id ∧
        ∃ a ∈ (runEvents maxCalls sid evs).calls,
          a.call_id = p ∧ a.depth + 1 = r.depth ∧ a.depth < r.depth) := by
  intro N sid evs r hr
  have hinv := engineInv_run N sid evs
  obtain ⟨i, hi⟩ := (mem_iff_getElem? _ r).mp hr
  obtain ⟨P1, P2, P3, P4⟩ := hinv.parent_ok i r hi
  have hid := hinv.id_idx i r hi
  refine ⟨P1, P2, P3, ?_⟩
  intro p hp
  obtain ⟨hpi, a, ha, hda⟩ := P4 p hp
  refine ⟨by rw [hid]; exact hpi, a, List.getElem?_mem ha,
    hinv.id_idx p a ha, hda, by omega⟩

theorem c3_witness :
    ∃ r : FunctionCall,
      r ∈ (runEvents 10 "w3"
        [TEvent.enter 0 ⟨"outer", "m", "p", 1⟩ [],
         TEvent.enter 0 ⟨"inner", "m", "p", 2⟩ []]).calls ∧
      r.depth = r.ancestors.length ∧ r.parent_id = r.ancestors.head? := by
  have hm : ((runEvents 10 "w3"
      [TEvent.enter 0 ⟨"outer", "m", "p", 1⟩ [],
       TEvent.enter 0 ⟨"inner", "m", "p", 2⟩ []]).calls.get ⟨1, by decide⟩) ∈
      (runEvents 10 "w3"
        [TEvent.enter 0 ⟨"outer", "m", "p", 1⟩ [],
         TEvent.enter 0 ⟨"inner", "m", "p", 2⟩ []]).calls :=
    List.get_mem _ _ _
  have h := c3_depth_parent_invariant 10 "w3"
    [TEvent.enter 0 ⟨"outer", "m", "p", 1⟩ [],
     TEvent.enter 0 ⟨"inner", "m", "p", 2⟩ []] _ hm
  exact ⟨_, hm, h.1, h.2.1⟩

/-- C4: the trace hook never raises into the host program: every internal
failure of the fallible hook (such as a bad frame state) is caught and
swallowed with the instrumentor state left untouched, well-formed events
are processed normally, and the detector skips any visible binding whose
value cannot be cheaply stringified — in particular self-referential
structures and binary payloads are skipped, null stringifies harmlessly,
and oversized strings (one million characters) still stringify under the
bounded cap instead of failing. -/
theorem c4_hook_never_raises :
    (∀ (st : RuntimeInstrumentor) (ev : Option TEvent) (m : String),
      hookE st ev = Except.error m → trace_function st ev = st) ∧
    (∀ (st : RuntimeInstrumentor) (e : TEvent),
      trace_function st (some e) = traceStep st e) ∧
    (∀ (pats : List String) (nm : String) (v : PyValue) (t : Nat),
      stringify v = none → scanFor pats [(nm, v)] t = []) ∧
    stringify PyValue.VCircular = none ∧
    stringify (PyValue.VBytes [0, 1, 2, 255, 254]) = none ∧
    stringify PyValue.VNone = some "None" ∧
    (stringify (PyValue.VBigStr 1000000 'x')).isSome = true ∧
    (∀ s2 : String, (stringify (PyValue.VStr s2)).isSome = true) := by
  refine ⟨?_, fun st e => rfl, ?_, rfl, rfl, rfl, rfl, fun s2 => rfl⟩
  · intro st ev m h
    cases ev with
    | none => rfl
    | some e => simp [hookE] at h
  · intro pats nm v t h
    simp [scanFor, h]

theorem c4_witness :
    trace_function (initState 50 "w4") none = initState 50 "w4" ∧
    scanFor sql_patterns [("circ", PyValue.VCircular)] 0 = [] := by
  refine ⟨?_, ?_⟩
  · exact c4_hook_never_raises.1 (initState 50 "w4") none "bad frame state" rfl
  · exact c4_hook_never_raises.2.2.1 sql_patterns "circ" PyValue.VCircular 0 rfl

/-- C5: for every configured max-calls bound N and every event stream, the
retained CallRecord list never exceeds N entries, finalize() still
produces the eleven artifacts, every retained record is still exported
(one flamegraph frame per record), records are never evicted (the id
sequence of the retained list is a prefix of every later one), and once
the cap is reached no further event adds a record and the next rejected
enter turns the capture-enabled flag off. -/
theorem c5_max_calls_bound :
    ∀ (N : Nat) (sid : String) (evs : List TEvent),
      (runEvents N sid evs).calls.length ≤ N ∧
      (finalize (runEvents N sid evs)).length = 11 ∧
      ((runEvents N sid evs).calls.map frameJson).length =
        (runEvents N sid evs).calls.length ∧
      (∀ evs2 : List TEvent,
        (runEvents N sid evs).calls.map FunctionCall.call_id <+:
          (runFrom (runEvents N sid evs) evs2).calls.map
            FunctionCall.call_id) ∧
      ((runEvents N sid evs).calls.length = N →
        (∀ evs2 : List TEvent,
          (runFrom (runEvents N sid evs) evs2).calls.map
              FunctionCall.call_id =
            (runEvents N sid evs).calls.map FunctionCall.call_id) ∧
        (∀ (tid : Nat) (site : Site) (locals : List (String × PyValue)),
          (traceStep (runEvents N sid evs)
            (.enter tid site locals)).enabled = false)) := by
  intro N sid evs
  have hmax : (runEvents N sid evs).max_calls = N := by
    have h := (runFrom_const_fields (initState N sid) evs).1
    simpa [runEvents, initState] using h
  have hinv := engineInv_run N sid evs
  have hcap : (runEvents N sid evs).calls.length ≤ N :=
    le_trans hinv.cap_ok (le_of_eq hmax)
  refine ⟨hcap, rfl, by simp, fun evs2 => calls_ids_prefix_runFrom _ evs2, ?_⟩
  intro hN
  constructor
  · intro evs2
    have hpre := calls_ids_prefix_runFrom (runEvents N sid evs) evs2
    have hinv2 := engineInv_runFrom (runEvents N sid evs) evs2 hinv
    have hmax2 : (runFrom (runEvents N sid evs) evs2).max_calls = N := by
      rw [(runFrom_const_fields (runEvents N sid evs) evs2).1, hmax]
    have hlen2 : (runFrom (runEvents N sid evs) evs2).calls.length ≤ N :=
      le_trans hinv2.cap_ok (le_of_eq hmax2)
    have hlen_eq :
        ((runEvents N sid evs).calls.map FunctionCall.call_id).length =
        ((runFrom (runEvents N sid evs) evs2).calls.map
          FunctionCall.call_id).length := by
      have h1 := hpre.length_le
      simp only [List.length_map] at h1 ⊢
      omega
    exact (hpre.eq_of_length hlen_eq).symm
  · intro tid site locals
    have hcond : ((runEvents N sid evs).enabled &&
        decide ((runEvents N sid evs).calls.length <
          (runEvents N sid evs).max_calls)) = false := by
      rw [hN, hmax]
      simp
    rw [traceStep_enter_neg _ tid site locals hcond]

theorem c5_witness :
    (runEvents 1 "w5" [TEvent.enter 0 ⟨"f", "m", "p", 1⟩ [],
      TEvent.enter 0 ⟨"g", "m", "p", 2⟩ []]).calls.length ≤ 1 ∧
    (runFrom (runEvents 1 "w5" [TEvent.enter 0 ⟨"f", "m", "p", 1⟩ [],
        TEvent.enter 0 ⟨"g", "m", "p", 2⟩ []])
      [TEvent.enter 0 ⟨"h", "m", "p", 3⟩ []]).calls.map
        FunctionCall.call_id =
      (runEvents 1 "w5" [TEvent.enter 0 ⟨"f", "m", "p", 1⟩ [],
        TEvent.enter 0 ⟨"g", "m", "p", 2⟩ []]).calls.map
          FunctionCall.call_id := by
  have h := c5_max_calls_bound 1 "w5"
    [TEvent.enter 0 ⟨"f", "m", "p", 1⟩ [], TEvent.enter 0 ⟨"g", "m", "p", 2⟩ []]
  exact ⟨h.1, (h.2.2.2.2 (by decide)).1 [TEvent.enter 0 ⟨"h", "m", "p", 3⟩ []]⟩

theorem scanFor_mem (pats : List String) (locals : List (String × PyValue))
    (t : Nat) (nm : String) (v : PyValue) (sv : String)
    (hmem : (nm, v) ∈ locals) (hsv : stringify v = some sv)
    (hhit : (pats.any fun p => containsSub p.data sv.data) = true) :
    (⟨nm, sv, t⟩ : Evidence) ∈ scanFor pats locals t := by
  refine List.mem_flatMap.mpr ⟨(nm, v), hmem, ?_⟩
  simp only [hsv]
  rw [if_pos hhit]
  exact List.mem_singleton_self _

/-- C6 counterexample: the claim as stated fails on the modelled detector.
A visible binding whose value is exactly the string SELECT contains the
SQL keyword SELECT, yet the pattern tables scan for keyword-plus-space
entries (the spec names the entry as the eight characters of SELECT
followed by a space, and the unit test asserts that exact entry), so no
evidence is appended and the exported total query count is zero. -/
theorem c6_counterexample :
    claim_keyword_hit "SELECT" = true ∧
    (runEvents 50 "s6" [TEvent.enter 0 ⟨"f", "m", "f.py", 1⟩
        [("q", PyValue.VStr "SELECT")]]).calls.map
      (fun r => r.sql_queries.length) = [0] ∧
    sql_total_queries (runEvents 50 "s6" [TEvent.enter 0 ⟨"f", "m", "f.py", 1⟩
        [("q", PyValue.VStr "SELECT")]]) = 0 := by
  exact ⟨by decide, by decide, by decide⟩

/-- The total SQL query statistic never decreases across later trace
events: an enter can only append a record, and the exception and return
updates leave every record's sql_queries list untouched (evidence lists
are append-only during capture, spec section 3). -/
theorem sql_total_step_mono (s : RuntimeInstrumentor) (ev : TEvent) :
    sql_total_queries s ≤ sql_total_queries (traceStep s ev) := by
  cases ev with
  | enter tid site locals =>
    cases hcond : (s.enabled && decide (s.calls.length < s.max_calls)) with
    | true =>
      rw [traceStep_enter_pos s tid site locals hcond]
      simp only [sql_total_queries, List.map_append, List.sum_append]
      exact Nat.le_add_right _ _
    | false =>
      rw [traceStep_enter_neg s tid site locals hcond]
      exact le_refl _
  | exc tid m =>
    cases hstk : s.call_stacks tid with
    | nil =>
      rw [traceStep_exc_nil s tid m hstk]
      exact le_refl _
    | cons c0 rest =>
      rw [traceStep_exc_cons s tid m c0 rest hstk]
      refine le_of_eq ?_
      simp only [sql_total_queries]
      rw [map_updAt s.calls c0 (markExc m)
        (fun r => r.sql_queries.length) (fun r => rfl)]
  | ret tid =>
    cases hstk : s.call_stacks tid with
    | nil =>
      rw [traceStep_ret_nil s tid hstk]
      exact le_refl _
    | cons c0 rest =>
      rw [traceStep_ret_cons s tid c0 rest hstk]
      refine le_of_eq ?_
      simp only [sql_total_queries]
      rw [map_updAt s.calls c0 (closeCall s.now)
        (fun r => r.sql_queries.length) (fun r => rfl)]

/-- The total SQL query statistic never decreases over any continuation of
the run: captured evidence survives every later event up to finalize. -/
theorem sql_total_runFrom_mono (s : RuntimeInstrumentor)
    (evs : List TEvent) :
    sql_total_queries s ≤ sql_total_queries (runFrom s evs) := by
  induction evs generalizing s with
  | nil => exact le_refl _
  | cons ev rest ih =>
    exact le_trans (sql_total_step_mono s ev) (ih (traceStep s ev))

/-- C6 (amended): whenever capture is active and some visible binding at a
call entry stringifies to a value containing an entry of the SQL pattern
table (a SQL keyword followed by a space), the detector appends at least
one sql_queries evidence entry to the CallRecord created at that entry,
and for every continuation of the execution (returns, exceptions, further
calls) the sql_analysis.json artifact exported at finalize reports a
statistics.total_queries of at least one: the statistic is monotone, and
the artifact content carries exactly that statistic. -/
theorem c6_sql_detection_amended :
    ∀ (st : RuntimeInstrumentor) (tid : Nat) (site : Site)
      (locals : List (String × PyValue)) (nm : String) (v : PyValue)
      (sv : String),
      st.enabled = true → st.calls.length < st.max_calls →
      (nm, v) ∈ locals → stringify v = some sv →
      (sql_patterns.any fun p => containsSub p.data sv.data) = true →
      (∃ r ∈ (traceStep st (.enter tid site locals)).calls,
        r.sql_queries ≠ []) ∧
      (∀ evs2 : List TEvent,
        1 ≤ sql_total_queries
          (runFrom (traceStep st (.enter tid site locals)) evs2) ∧
        (export_sql_analysis_json
            (runFrom (traceStep st (.enter tid site locals)) evs2)).content =
          ArtifactContent.jsonC (JsonVal.jobj
            [("session_id", JsonVal.jstr
                (runFrom (traceStep st (.enter tid site locals))
                  evs2).session_id),
             ("statistics", JsonVal.jobj [("total_queries", JsonVal.jnum
                (sql_total_queries
                  (runFrom (traceStep st (.enter tid site locals)) evs2)))]),
             ("all_queries", JsonVal.jarr ((all_sql_queries
                (runFrom (traceStep st (.enter tid site locals))
                  evs2)).map evidenceJson))])) := by
  intro st tid site locals nm v sv hen hlt hmem hsv hhit
  have hcond : (st.enabled && decide (st.calls.length < st.max_calls))
      = true := by
    simp [hen, hlt]
  have hsql : (enterRecord st tid site locals).sql_queries =
      scanFor sql_patterns locals st.now := by
    simp [enterRecord, detect_patterns_in_frame, new_function_call]
  have hne : (enterRecord st tid site locals).sql_queries ≠ [] := by
    rw [hsql]
    exact List.ne_nil_of_mem
      (scanFor_mem sql_patterns locals st.now nm v sv hmem hsv hhit)
  have hpos : 0 < (enterRecord st tid site locals).sql_queries.length :=
    List.length_pos.mpr hne
  have hbase : 1 ≤ sql_total_queries (traceStep st (.enter tid site locals)) := by
    rw [traceStep_enter_pos st tid site locals hcond]
    simp only [sql_total_queries, List.map_append, List.sum_append,
      List.map_cons, List.map_nil, List.sum_cons, List.sum_nil]
    omega
  constructor
  · rw [traceStep_enter_pos st tid site locals hcond]
    exact ⟨enterRecord st tid site locals, by simp, hne⟩
  · intro evs2
    exact ⟨le_trans hbase (sql_total_runFrom_mono _ evs2), rfl⟩

theorem c6_witness :
    (∃ r ∈ (traceStep (initState 50 "w6")
        (.enter 0 ⟨"f", "m", "p", 1⟩
          [("query", PyValue.VStr "SELECT * FROM users")])).calls,
      r.sql_queries ≠ []) ∧
    1 ≤ sql_total_queries (runFrom (traceStep (initState 50 "w6")
        (.enter 0 ⟨"f", "m", "p", 1⟩
          [("query", PyValue.VStr "SELECT * FROM users")]))
      [TEvent.ret 0]) := by
  have h := c6_sql_detection_amended (initState 50 "w6") 0 ⟨"f", "m", "p", 1⟩
    [("query", PyValue.VStr "SELECT * FROM users")] "query"
    (PyValue.VStr "SELECT * FROM users") "SELECT * FROM users"
    rfl (by decide) (by decide) (by decide) (by decide)
  exact ⟨h.1, (h.2 [TEvent.ret 0]).1⟩

/-- C7: a traced call that raises still yields a CallRecord with the
exception recorded and the end time set, without aborting the tracer: in
general, whenever the exception and return events of the top-of-stack call
are processed, that record carries the exception message, an end time and
a duration; and in the nested scenario outer calling inner where inner
raises and outer catches, the inner record has the exception and its
timing set while the outer record completes normally with no exception. -/
theorem c7_exception_recorded :
    (∀ (st : RuntimeInstrumentor) (tid : Nat) (m : String) (c0 : Nat)
      (rest : List Nat) (r : FunctionCall), EngineInv st →
      st.call_stacks tid = c0 :: rest →
      (runFrom st [TEvent.exc tid m, TEvent.ret tid]).calls[c0]? = some r →
      r.exception = some m ∧ r.end_time = some (st.now + 1) ∧
      r.duration_ms.isSome = true) ∧
    (∀ (sid : String) (fo fi : Site) (m : String),
      ((runEvents 50 sid [TEvent.enter 0 fo [], TEvent.enter 0 fi [],
        TEvent.exc 0 m, TEvent.ret 0, TEvent.ret 0]).calls.map
          FunctionCall.exception = [none, some m]) ∧
      ((runEvents 50 sid [TEvent.enter 0 fo [], TEvent.enter 0 fi [],
        TEvent.exc 0 m, TEvent.ret 0, TEvent.ret 0]).calls.map
          FunctionCall.end_time = [some 4, some 3]) ∧
      ((runEvents 50 sid [TEvent.enter 0 fo [], TEvent.enter 0 fi [],
        TEvent.exc 0 m, TEvent.ret 0, TEvent.ret 0]).calls.map
          FunctionCall.duration_ms = [some 4, some 2]) ∧
      ((runEvents 50 sid [TEvent.enter 0 fo [], TEvent.enter 0 fi [],
        TEvent.exc 0 m, TEvent.ret 0, TEvent.ret 0]).calls.map
          FunctionCall.depth = [0, 1]) ∧
      ((runEvents 50 sid [TEvent.enter 0 fo [], TEvent.enter 0 fi [],
        TEvent.exc 0 m, TEvent.ret 0, TEvent.ret 0]).calls.map
          FunctionCall.parent_id = [none, some 0])) := by
  refine ⟨?_, fun sid fo fi m => ⟨rfl, rfl, rfl, rfl, rfl⟩⟩
  intro st tid m c0 rest r hinv hstk hr
  have hc0lt : c0 < st.calls.length :=
    hinv.stack_bound tid c0 (by rw [hstk]; exact List.mem_cons_self _ _)
  have h1 : runFrom st [TEvent.exc tid m, TEvent.ret tid] =
      traceStep (traceStep st (.exc tid m)) (.ret tid) := rfl
  rw [h1, traceStep_exc_cons st tid m c0 rest hstk] at hr
  rw [traceStep_ret_cons _ tid c0 rest (by exact hstk)] at hr
  dsimp only at hr
  rw [getElem?_updAt, if_pos rfl, getElem?_updAt, if_pos rfl] at hr
  cases h0 : st.calls[c0]? with
  | none => rw [h0] at hr; simp at hr
  | some r0 =>
    rw [h0] at hr
    simp only [Option.map_some', Option.some_inj] at hr
    rw [← hr]
    exact ⟨rfl, rfl, rfl⟩

theorem c7_witness :
    ∃ r : FunctionCall,
      (runFrom (runEvents 50 "w7" [TEvent.enter 0 ⟨"f", "m", "p", 1⟩ []])
        [TEvent.exc 0 "boom", TEvent.ret 0]).calls[0]? = some r ∧
      r.exception = some "boom" ∧ r.end_time = some 2 := by
  cases h0 : (runFrom (runEvents 50 "w7" [TEvent.enter 0 ⟨"f", "m", "p", 1⟩ []])
      [TEvent.exc 0 "boom", TEvent.ret 0]).calls[0]? with
  | none => exact absurd h0 (by decide)
  | some r =>
    have h := c7_exception_recorded.1
      (runEvents 50 "w7" [TEvent.enter 0 ⟨"f", "m", "p", 1⟩ []])
      0 "boom" 0 [] r (engineInv_run 50 "w7" _) rfl h0
    exact ⟨r, rfl, h.1, h.2.1⟩

theorem clean_append {a b : String}
    (ha : '@' ∉ a.data ∧ '\n' ∉ a.data)
    (hb : '@' ∉ b.data ∧ '\n' ∉ b.data) :
    '@' ∉ (a ++ b).data ∧ '\n' ∉ (a ++ b).data := by
  refine ⟨?_, ?_⟩ <;> intro hmem
  · rw [String.data_append] at hmem
    rcases List.mem_append.mp hmem with h | h
    · exact ha.1 h
    · exact hb.1 h
  · rw [String.data_append] at hmem
    rcases List.mem_append.mp hmem with h | h
    · exact ha.2 h
    · exact hb.2 h

theorem clean_escape (s : String) :
    '@' ∉ (escapePuml s).data ∧ '\n' ∉ (escapePuml s).data := by
  refine ⟨?_, ?_⟩ <;> intro hmem
  · exact (escapePuml_mem s '@' hmem).1 rfl
  · exact (escapePuml_mem s '\n' hmem).2.1 rfl

/-- C8: for every instrumentor state, including ones whose module or
session identifiers are attacker-controlled strings such as the
quote-and-at-enduml injection payload, the generated PlantUML document
starts with the start directive, ends with the single end directive, and
every line in between contains no at-sign character at all (hence no
unescaped enduml or startuml token) and no embedded newline that could
split a line and prematurely terminate or inject diagram statements. -/
theorem c8_plantuml_escapes_injection :
    ∀ st : RuntimeInstrumentor,
      (plantuml_lines st).head? = some "@startuml" ∧
      (plantuml_lines st).getLast? = some "@enduml" ∧
      (∀ l : String, l ∈ ((plantuml_lines st).drop 1).dropLast →
        '@' ∉ l.data ∧ '\n' ∉ l.data) := by
  intro st
  refine ⟨rfl, ?_, ?_⟩
  · simp only [plantuml_lines]
    exact List.getLast?_concat _
  · intro l hl
    simp only [plantuml_lines] at hl
    rw [interior_lines_eq] at hl
    rcases List.mem_cons.mp hl with rfl | hl2
    · exact clean_append ⟨by decide, by decide⟩ (clean_escape st.session_id)
    · rcases List.mem_append.mp hl2 with hp | ha2
      · obtain ⟨r, hr, rfl⟩ := List.mem_map.mp hp
        exact clean_append
          (clean_append ⟨by decide, by decide⟩ (clean_escape r.module))
          ⟨by decide, by decide⟩
      · obtain ⟨r, hr, hl3⟩ := List.mem_flatMap.mp ha2
        cases hpe : r.parent_id with
        | none => rw [hpe] at hl3; simp at hl3
        | some p =>
          rw [hpe] at hl3
          dsimp only at hl3
          cases hae : st.calls[p]? with
          | none => rw [hae] at hl3; simp at hl3
          | some a =>
            rw [hae] at hl3
            dsimp only at hl3
            have hle : l = "\"" ++ escapePuml a.module ++ "\" -> \"" ++
                escapePuml r.module ++ "\" : " ++
                escapePuml r.function_name := by
              simpa using hl3
            rw [hle]
            exact clean_append
              (clean_append
                (clean_append
                  (clean_append
                    (clean_append ⟨by decide, by decide⟩
                      (clean_escape a.module))
                    ⟨by decide, by decide⟩)
                  (clean_escape r.module))
                ⟨by decide, by decide⟩)
              (clean_escape r.function_name)

theorem c8_witness :
    '@' ∉ ("participant \"" ++ escapePuml mal_module ++ "\"").data := by
  exact ((c8_plantuml_escapes_injection mal_state).2.2
    ("participant \"" ++ escapePuml mal_module ++ "\"") (by decide)).1

/-- C9: for every run of the trace engine and every retained CallRecord,
whenever the end time is set it is at least the start time; the duration
is set exactly when the end time is set, which happens exactly when the
call is no longer open on any thread stack (its return or
exception-then-return was processed); and a freshly created CallRecord has
both the end time and the duration unset.  Renderers are pure functions of
the state, so an open record keeps its duration unset through finalize. -/
theorem c9_timing_invariant :
    (∀ (maxCalls : Nat) (sid : String) (evs : List TEvent) (r : FunctionCall),
      r ∈ (runEvents maxCalls sid evs).calls →
      (∀ e : Nat, r.end_time = some e → r.start_time ≤ e) ∧
      (r.duration_ms.isSome ↔ r.end_time.isSome) ∧
      (r.end_time = none ↔
        ∃ t : Nat, r.call_id ∈ (runEvents maxCalls sid evs).call_stacks t)) ∧
    (∀ (cid : Nat) (site : Site) (t : Nat),
      (new_function_call cid site t).end_time = none ∧
      (new_function_call cid site t).duration_ms = none) := by
  refine ⟨?_, fun cid site t => ⟨rfl, rfl⟩⟩
  intro N sid evs r hr
  have hinv := engineInv_run N sid evs
  obtain ⟨i, hi⟩ := (mem_iff_getElem? _ r).mp hr
  have hid := hinv.id_idx i r hi
  refine ⟨hinv.end_ok i r hi, hinv.dur_iff i r hi, ?_⟩
  rw [hid]
  exact hinv.open_iff i r hi

theorem c9_witness :
    ∃ r : FunctionCall,
      r ∈ (runEvents 50 "w9"
        [TEvent.enter 0 ⟨"f", "m", "p", 1⟩ [], TEvent.ret 0]).calls ∧
      (r.duration_ms.isSome ↔ r.end_time.isSome) := by
  have hm : ((runEvents 50 "w9"
      [TEvent.enter 0 ⟨"f", "m", "p", 1⟩ [],
       TEvent.ret 0]).calls.get ⟨0, by decide⟩) ∈
      (runEvents 50 "w9"
        [TEvent.enter 0 ⟨"f", "m", "p", 1⟩ [], TEvent.ret 0]).calls :=
    List.get_mem _ _ _
  exact ⟨_, hm, (c9_timing_invariant.1 50 "w9"
    [TEvent.enter 0 ⟨"f", "m", "p", 1⟩ [], TEvent.ret 0] _ hm).2.1⟩

/-- C10: for every instrumentor state, the distributed_analysis.json
object carries exactly the session identifier, the websocket_events,
agent_communications and mcp_calls per-protocol event lists and the
architecture_map, and no kafka_events field — even when Kafka evidence was
captured on the CallRecords, as in the concrete run below where the
detector stored one kafka_events entry on the record. -/
theorem c10_distributed_omits_kafka :
    (∀ st : RuntimeInstrumentor,
      (distributed_fields st).map Prod.fst =
        ["session_id", "websocket_events", "agent_communications",
         "mcp_calls", "architecture_map"] ∧
      (((distributed_fields st).map Prod.fst).contains "kafka_events")
        = false) ∧
    ((runEvents 50 "k10" [TEvent.enter 0 ⟨"produce", "m", "p", 1⟩
        [("client", PyValue.VStr "kafka producer")]]).calls.map
      (fun r => r.kafka_events.length) = [1]) := by
  exact ⟨fun st => ⟨rfl, rfl⟩, by decide⟩
